import Mathlib

/-!
# Verification of the daily task organizer core

A shallow embedding of the file-backed task-history core of
`daily_task_organizer_streamlit_app.py`: the per-day record store
(`write_daily_file` / `parse_txt_day`), the carry-over resolver
(`get_latest_task_file` / `load_carry_over_tasks`), the history ledger
(`append_to_history` / `load_history`) and the range summarizer
(`summarize_range`).

Files are modelled as lists of lines (each Python `f.write(s + "\n")`
contributes one line; `f.readlines()` recovers them).  A filesystem is an
association list from file basenames to contents; an absent file is `none`.
Python strings are Lean `String`s, with Python's code-point-wise operations
(`str.strip`, `str.startswith`, slicing, `<`) re-implemented over `String.data`
so that they compute by kernel reduction.
-/

/-- Python `str.strip()` on a list of code points: drop whitespace from both
ends. -/
def stripChars (l : List Char) : List Char :=
  (((l.dropWhile Char.isWhitespace).reverse).dropWhile Char.isWhitespace).reverse

/-- Python `str.strip()`. -/
def pstrip (s : String) : String := ⟨stripChars s.data⟩

/-- Code-point prefix test, `isPrefixCh pre l` iff `pre` is a prefix of `l`. -/
def isPrefixCh : List Char → List Char → Bool
  | [], _ => true
  | _ :: _, [] => false
  | a :: as, b :: bs => a == b && isPrefixCh as bs

/-- Python `s.startswith(pre)`. -/
def pstartsWith (s pre : String) : Bool := isPrefixCh pre.data s.data

/-- Python `s[n:]` (slicing by code points). -/
def pdrop (s : String) (n : Nat) : String := ⟨s.data.drop n⟩

/-- Python `<` on strings: strict lexicographic order on code points. -/
def ltCh : List Char → List Char → Bool
  | [], [] => false
  | [], _ :: _ => true
  | _ :: _, [] => false
  | a :: as, b :: bs =>
      if a.toNat < b.toNat then true
      else if b.toNat < a.toNat then false
      else ltCh as bs

/-- Python `a < b` for strings. -/
def strLt (a b : String) : Bool := ltCh a.data b.data

/-- Python `a <= b` for strings (total order: `¬ (b < a)`). -/
def strLe (a b : String) : Bool := !(strLt b a)

/-- `strLe` as a relation, for use with `List.insertionSort`. -/
def strLeP (a b : String) : Prop := strLe a b = true

instance : DecidableRel strLeP := fun a b =>
  inferInstanceAs (Decidable (strLe a b = true))

/-- Python `s.split(sep)` for a one-character separator, on code points. -/
def splitOnCh (sep : Char) : List Char → List (List Char)
  | [] => [[]]
  | c :: rest =>
      let r := splitOnCh sep rest
      if c == sep then [] :: r
      else
        match r with
        | [] => [[c]]
        | h :: t => (c :: h) :: t

/-- Python `s.split(sep)` for a one-character separator. -/
def psplit (s : String) (sep : Char) : List String :=
  (splitOnCh sep s.data).map (fun l => ⟨l⟩)

/-- A calendar date as held by `datetime.date`. -/
structure Date where
  year : Nat
  month : Nat
  day : Nat
deriving DecidableEq, Repr

/-- Zero-pad the decimal representation of `n` to width `w`
(Python `%Y` / `%m` / `%d` formatting). -/
def natPad (w n : Nat) : String :=
  let s := toString n
  ⟨List.replicate (w - s.data.length) '0' ++ s.data⟩

/-- `date_str`: `d.strftime("%Y-%m-%d")`, the zero-padded ISO date. -/
def dateStr (d : Date) : String :=
  natPad 4 d.year ++ "-" ++ natPad 2 d.month ++ "-" ++ natPad 2 d.day

/-- `datetime.date` comparison: lexicographic on (year, month, day). -/
def dateLe (a b : Date) : Bool :=
  if a.year ≠ b.year then a.year < b.year
  else if a.month ≠ b.month then a.month < b.month
  else a.day ≤ b.day

/-- Parser state of `parse_txt_day`'s loop: current `section`
(`some true` = completed, `some false` = incomplete, `none` = no header seen)
and the two accumulated task lists. -/
abbrev PState := Option Bool × List String × List String

/-- One iteration of the loop in `parse_txt_day`, acting on an
already-stripped line. -/
def parseStep (st : PState) (ln : String) : PState :=
  if pstartsWith ln "✅ Completed Tasks" then (some true, st.2.1, st.2.2)
  else if pstartsWith ln "❌ Incomplete Tasks" then (some false, st.2.1, st.2.2)
  else if pstartsWith ln "- " then
    let task := pstrip (pdrop ln 2)
    match st.1 with
    | some true => (st.1, st.2.1 ++ [task], st.2.2)
    | some false => (st.1, st.2.1, st.2.2 ++ [task])
    | none => st
  else st

/-- The loop of `parse_txt_day` over the (stripped) lines of an existing
file. -/
def parseLines (lns : List String) : List String × List String :=
  let st := lns.foldl (fun st ln => parseStep st (pstrip ln)) (none, [], [])
  (st.2.1, st.2.2)

/-- `parse_txt_day(path)`: `none` models a path for which
`os.path.exists` is false. -/
def parseTxtDay : Option (List String) → List String × List String
  | none => ([], [])
  | some lns => parseLines lns

/-- `write_daily_file`: the lines written for day `d`. -/
def writeDailyFile (d : Date) (completed incomplete : List String) : List String :=
  ["===== " ++ dateStr d ++ " ====="]
    ++ ["✅ Completed Tasks:"]
    ++ (match completed with
        | [] => ["None"]
        | _ => completed.map (fun t => "- " ++ t))
    ++ ["❌ Incomplete Tasks:"]
    ++ (match incomplete with
        | [] => ["None"]
        | _ => incomplete.map (fun t => "- " ++ t))

/-- The report files excluded by `get_latest_task_file`. -/
def reportFiles : List String := ["weekly_report.txt", "monthly_report.txt"]

/-- `get_latest_task_file(before_date)`.  `files` are the basenames matched
by `glob.glob("tasks_data/*.txt")`; since every glob result carries the same
directory prefix, sorting/comparing full paths is sorting/comparing
basenames.  A `datetime.date` is always truthy, so `before = some d` takes
the `if before_date:` branch. -/
def getLatestTaskFile (files : List String) (before : Option Date) : Option String :=
  let sortedFiles := List.insertionSort strLeP files
  let nonReport := sortedFiles.filter (fun f => !(reportFiles.contains f))
  let eligible :=
    match before with
    | some d => nonReport.filter (fun f => strLt f (dateStr d ++ ".txt"))
    | none => nonReport
  eligible.getLast?

/-- A filesystem of `.txt` files in the data directory: basename ↦ lines. -/
abbrev FileSys := List (String × List String)

/-- Reading a file from the modelled filesystem. -/
def readFile (fs : FileSys) (name : String) : Option (List String) :=
  fs.lookup name

/-- `load_carry_over_tasks(today)`. -/
def loadCarryOverTasks (fs : FileSys) (today : Date) : List String :=
  match getLatestTaskFile (fs.map Prod.fst) (some today) with
  | none => []
  | some p => (parseTxtDay (readFile fs p)).2

/-- One row of `history.csv` as written by `append_to_history`
(the `date` column is the ISO string `date_str(d)`). -/
structure Row where
  date : String
  task : String
  status : String
deriving DecidableEq, Repr

/-- The rows `append_to_history` builds for one save. -/
def newRows (d : Date) (completed incomplete : List String) : List Row :=
  completed.map (fun t => ⟨dateStr d, t, "completed"⟩)
    ++ incomplete.map (fun t => ⟨dateStr d, t, "incomplete"⟩)

/-- `ensure_history_csv`: creates the ledger, empty, when absent. -/
def ensureHistoryCsv (ledger : Option (List Row)) : Option (List Row) :=
  match ledger with
  | none => some []
  | some rows => some rows

/-- `append_to_history(d, completed, incomplete)` acting on the ledger's
row list (`none` = `history.csv` absent).  Mirrors the source: ensure the
CSV exists, build the new rows, and only when they are non-empty
read-concatenate-write. -/
def appendToHistory (ledger : Option (List Row)) (d : Date)
    (completed incomplete : List String) : Option (List Row) :=
  let ledger' := ensureHistoryCsv ledger
  let rows := newRows d completed incomplete
  match rows with
  | [] => ledger'
  | _ => some ((ledger'.getD []) ++ rows)

/-- A history entry after `load_history` has coerced the `date` column to a
date value (`pd.to_datetime(df["date"]).dt.date`). -/
structure Entry where
  date : Date
  task : String
  status : String
deriving DecidableEq, Repr

/-- Check that every character of `l` is a decimal digit and `l` is
non-empty, and return its value. -/
def digitsToNat (l : List Char) : Option Nat :=
  if l ≠ [] ∧ l.all Char.isDigit then
    some (l.foldl (fun n c => n * 10 + (c.toNat - 48)) 0)
  else none

/-- Parse one `YYYY-MM-DD` field the way `pd.to_datetime` accepts the dates
this app writes: three dash-separated decimal components naming a valid
calendar date. -/
def parseDate (s : String) : Option Date :=
  match (psplit s '-').map (fun c => digitsToNat c.data) with
  | [some y, some m, some d] =>
      if 1 ≤ m ∧ m ≤ 12 ∧ 1 ≤ d ∧ d ≤ 31 then some ⟨y, m, d⟩ else none
  | _ => none

/-- Parse one CSV data line `date,task,status` into a typed entry. -/
def parseCsvRow (ln : String) : Option Entry :=
  match psplit ln ',' with
  | [d, t, s] => (parseDate d).map (fun day => ⟨day, t, s⟩)
  | _ => none

/-- Model of `pd.read_csv` + the date coercion in `load_history`: the first
line must be the ledger header and every further line a well-formed row; any
deviation (including an empty file, on which `read_csv` raises
`EmptyDataError`) is a parse failure. -/
def parseLedger (lns : List String) : Option (List Entry) :=
  match lns with
  | [] => none
  | hdr :: rows =>
      if hdr = "date,task,status" then rows.mapM parseCsvRow else none

/-- `ensure_history_csv` at the file level: an absent ledger file is created
holding only the header line. -/
def ensureHistoryFile (file : Option (List String)) : List String :=
  match file with
  | none => ["date,task,status"]
  | some lns => lns

/-- The `try`/`except` core of `load_history`, parametric in the parser so
the recovery behaviour is independent of the details of `pd.read_csv`: a
parse failure degrades to an empty row list instead of propagating. -/
def loadHistoryWith (parse : List String → Option (List Entry))
    (file : Option (List String)) : List Entry :=
  match parse (ensureHistoryFile file) with
  | some df => df
  | none => []

/-- `load_history()` over the ledger file's lines (`none` = file absent). -/
def loadHistory (file : Option (List String)) : List Entry :=
  loadHistoryWith parseLedger file

/-- The dictionary returned by `summarize_range` (completion rate as an
exact rational; the Python `float` arithmetic on these small integer
operands is exact up to representation). -/
structure Stats where
  daysTracked : Nat
  completed : Nat
  incomplete : Nat
  total : Nat
  completionRate : ℚ
deriving DecidableEq, Repr

/-- The row filter of `summarize_range`: `(df["date"] >= start) & (df["date"] <= end)`. -/
def inRange (start stop : Date) (e : Entry) : Bool :=
  dateLe start e.date && dateLe e.date stop

/-- `summarize_range(df, start, end)`. -/
def summarizeRange (entries : List Entry) (start stop : Date) : Stats :=
  let sub := entries.filter (inRange start stop)
  let completed := (sub.filter (fun e => e.status == "completed")).length
  let incomplete := (sub.filter (fun e => e.status == "incomplete")).length
  { daysTracked := ((sub.map Entry.date).dedup).length
    completed := completed
    incomplete := incomplete
    total := completed + incomplete
    completionRate :=
      if completed + incomplete ≠ 0 then
        (completed : ℚ) / ((completed : ℚ) + (incomplete : ℚ)) * 100
      else 0 }

/-- The data-model invariant on task names: non-empty, trimmed (stripping is
the identity) and single-line. -/
def validTask (t : String) : Prop :=
  t ≠ "" ∧ pstrip t = t ∧ '\n' ∉ t.data

instance (t : String) : Decidable (validTask t) := by
  unfold validTask
  infer_instance

/-! ## Generic facts about `dropWhile`-based stripping -/

theorem dropWhile_head_false {α : Type} (p : α → Bool) (l : List α) {a : α}
    (h : (l.dropWhile p).head? = some a) : p a = false := by
  have hh := List.head?_dropWhile_not p l
  rw [h] at hh
  exact hh

theorem dropWhile_eq_self_of_head {α : Type} (p : α → Bool) (l : List α)
    (h : ∀ a, l.head? = some a → p a = false) : l.dropWhile p = l := by
  cases l with
  | nil => rfl
  | cons a t =>
      rw [List.dropWhile_cons_of_neg]
      simp [h a rfl]

theorem dropWhile_eq_self_of_length {α : Type} (p : α → Bool) (l : List α)
    (h : (l.dropWhile p).length = l.length) : l.dropWhile p = l :=
  (List.dropWhile_sublist p).eq_of_length h

theorem head_false_of_dropWhile_self {α : Type} (p : α → Bool) (l : List α)
    (h : l.dropWhile p = l) : ∀ a, l.head? = some a → p a = false := by
  intro a ha
  cases l with
  | nil => simp at ha
  | cons b t =>
      simp only [List.head?_cons, Option.some.injEq] at ha
      subst ha
      by_contra hp
      have hpa : p b = true := by simpa using hp
      rw [List.dropWhile_cons_of_pos hpa] at h
      have hle := (List.dropWhile_sublist p (l := t)).length_le
      have hlen := congrArg List.length h
      simp at hlen
      omega

theorem getLast?_dropWhile_of_ne_nil {α : Type} (p : α → Bool) (l : List α)
    (h : l.dropWhile p ≠ []) : (l.dropWhile p).getLast? = l.getLast? := by
  obtain ⟨pre, hpre⟩ := List.dropWhile_suffix (l := l) p
  conv_rhs => rw [← hpre]
  rw [List.getLast?_append_of_ne_nil pre h]

theorem stripChars_eq_self (l : List Char)
    (h1 : ∀ a, l.head? = some a → a.isWhitespace = false)
    (h2 : ∀ a, l.getLast? = some a → a.isWhitespace = false) :
    stripChars l = l := by
  unfold stripChars
  rw [dropWhile_eq_self_of_head _ _ h1]
  rw [dropWhile_eq_self_of_head _ _
    (fun a ha => h2 a (by rwa [List.head?_reverse] at ha))]
  exact List.reverse_reverse l

theorem stripChars_self_parts (l : List Char) (h : stripChars l = l) :
    l.dropWhile Char.isWhitespace = l ∧
      l.reverse.dropWhile Char.isWhitespace = l.reverse := by
  unfold stripChars at h
  have lenB :
      (((l.dropWhile Char.isWhitespace).reverse).dropWhile Char.isWhitespace).length
        = l.length := by
    rw [← List.length_reverse
      (((l.dropWhile Char.isWhitespace).reverse).dropWhile Char.isWhitespace), h]
  have lenAle := (List.dropWhile_sublist (l := l) Char.isWhitespace).length_le
  have lenBle := (List.dropWhile_sublist
    (l := (l.dropWhile Char.isWhitespace).reverse) Char.isWhitespace).length_le
  rw [List.length_reverse] at lenBle
  have lenA : (l.dropWhile Char.isWhitespace).length = l.length := by omega
  have hA : l.dropWhile Char.isWhitespace = l :=
    dropWhile_eq_self_of_length _ _ lenA
  refine ⟨hA, ?_⟩
  rw [hA] at lenB
  exact dropWhile_eq_self_of_length _ _ (by rw [lenB, List.length_reverse])

theorem stripChars_idem (l : List Char) : stripChars (stripChars l) = stripChars l := by
  apply stripChars_eq_self
  · intro a ha
    unfold stripChars at ha
    rw [List.head?_reverse] at ha
    have hne : ((l.dropWhile Char.isWhitespace).reverse).dropWhile Char.isWhitespace ≠ [] := by
      intro hnil
      rw [hnil] at ha
      simp at ha
    rw [getLast?_dropWhile_of_ne_nil _ _ hne, List.getLast?_reverse] at ha
    exact dropWhile_head_false _ _ ha
  · intro a ha
    unfold stripChars at ha
    rw [List.getLast?_reverse] at ha
    exact dropWhile_head_false _ _ ha

/-! ## Facts about `pstrip` on the shapes of lines the writer emits -/

theorem pstrip_data (s : String) : (pstrip s).data = stripChars s.data := rfl

theorem pstrip_eq_self_of_ends (s : String)
    (h1 : ∀ a, s.data.head? = some a → a.isWhitespace = false)
    (h2 : ∀ a, s.data.getLast? = some a → a.isWhitespace = false) :
    pstrip s = s :=
  String.ext (stripChars_eq_self s.data h1 h2)

theorem validTask_data_ne_nil (t : String) (h : validTask t) : t.data ≠ [] := by
  intro hnil
  exact h.1 (String.ext (by rw [hnil]))

theorem validTask_stripChars (t : String) (h : validTask t) :
    stripChars t.data = t.data := by
  have := congrArg String.data h.2.1
  rwa [pstrip_data] at this

theorem validTask_head (t : String) (h : validTask t) :
    ∀ a, t.data.head? = some a → a.isWhitespace = false := by
  have parts := stripChars_self_parts t.data (validTask_stripChars t h)
  exact head_false_of_dropWhile_self _ _ parts.1

theorem validTask_getLast (t : String) (h : validTask t) :
    ∀ a, t.data.getLast? = some a → a.isWhitespace = false := by
  have parts := stripChars_self_parts t.data (validTask_stripChars t h)
  intro a ha
  exact head_false_of_dropWhile_self _ _ parts.2 a
    (by rwa [List.head?_reverse])

theorem bullet_data (t : String) : ("- " ++ t).data = '-' :: ' ' :: t.data := by
  rw [String.data_append]
  rfl

theorem pstrip_bullet (t : String) (h : validTask t) :
    pstrip ("- " ++ t) = "- " ++ t := by
  apply pstrip_eq_self_of_ends
  · intro a ha
    rw [bullet_data] at ha
    simp only [List.head?_cons, Option.some.injEq] at ha
    subst ha
    rfl
  · intro a ha
    rw [bullet_data] at ha
    obtain ⟨c, cs, hcs⟩ : ∃ c cs, t.data = c :: cs := by
      cases hd : t.data with
      | nil => exact absurd hd (validTask_data_ne_nil t h)
      | cons c cs => exact ⟨c, cs, rfl⟩
    rw [hcs, List.getLast?_cons_cons, List.getLast?_cons_cons] at ha
    exact validTask_getLast t h a (by rw [hcs]; exact ha)

theorem pdrop_bullet (t : String) : pdrop ("- " ++ t) 2 = t := by
  unfold pdrop
  rw [bullet_data]
  rfl

theorem pstartsWith_head_ne (s pre : String) {a b : Char}
    (hs : s.data.head? = some a) (hp : pre.data.head? = some b) (hab : b ≠ a) :
    pstartsWith s pre = false := by
  unfold pstartsWith
  cases hd : pre.data with
  | nil => rw [hd] at hp; simp at hp
  | cons x xs =>
      cases hd2 : s.data with
      | nil => rw [hd2] at hs; simp at hs
      | cons y ys =>
          rw [hd] at hp
          rw [hd2] at hs
          have hx : x = b := by simpa using hp
          have hy : y = a := by simpa using hs
          simp only [isPrefixCh]
          rw [hx, hy, show (b == a) = false from by simp [hab]]
          rfl

theorem bullet_startsWith (t : String) : pstartsWith ("- " ++ t) "- " = true := by
  unfold pstartsWith
  rw [bullet_data]
  rfl

theorem bullet_not_completedHeader (t : String) :
    pstartsWith ("- " ++ t) "✅ Completed Tasks" = false := by
  refine pstartsWith_head_ne (a := '-') (b := '✅') _ _ ?_ ?_ ?_
  · rw [bullet_data]
    rfl
  · rfl
  · decide

theorem bullet_not_incompleteHeader (t : String) :
    pstartsWith ("- " ++ t) "❌ Incomplete Tasks" = false := by
  refine pstartsWith_head_ne (a := '-') (b := '❌') _ _ ?_ ?_ ?_
  · rw [bullet_data]
    rfl
  · rfl
  · decide

/-! ## The parser loop, line by line -/

theorem parseStep_unrecognized (st : PState) (ln : String)
    (h1 : pstartsWith ln "✅ Completed Tasks" = false)
    (h2 : pstartsWith ln "❌ Incomplete Tasks" = false)
    (h3 : pstartsWith ln "- " = false) :
    parseStep st ln = st := by
  unfold parseStep
  rw [h1, h2, h3]
  simp

theorem parseStep_completedHeader (sec : Option Bool) (cs is : List String) :
    parseStep (sec, cs, is) (pstrip "✅ Completed Tasks:") = (some true, cs, is) := by
  rw [show pstrip "✅ Completed Tasks:" = "✅ Completed Tasks:" from by decide]
  unfold parseStep
  rw [show pstartsWith "✅ Completed Tasks:" "✅ Completed Tasks" = true from by decide]
  simp

theorem parseStep_incompleteHeader (sec : Option Bool) (cs is : List String) :
    parseStep (sec, cs, is) (pstrip "❌ Incomplete Tasks:") = (some false, cs, is) := by
  rw [show pstrip "❌ Incomplete Tasks:" = "❌ Incomplete Tasks:" from by decide]
  unfold parseStep
  rw [show pstartsWith "❌ Incomplete Tasks:" "✅ Completed Tasks" = false from by decide]
  rw [show pstartsWith "❌ Incomplete Tasks:" "❌ Incomplete Tasks" = true from by decide]
  simp

theorem parseStep_noneLine (st : PState) : parseStep st (pstrip "None") = st := by
  rw [show pstrip "None" = "None" from by decide]
  exact parseStep_unrecognized st "None" (by decide) (by decide) (by decide)

theorem headerLine_data (d : Date) :
    ("===== " ++ dateStr d ++ " =====").data
      = '=' :: ('=' :: '=' :: '=' :: '=' :: ' ' :: []
          ++ ((dateStr d).data ++ (' ' :: '=' :: '=' :: '=' :: '=' :: '=' :: []))) := by
  rw [String.data_append, String.data_append]
  rw [show ("===== " : String).data = ['=', '=', '=', '=', '=', ' '] from rfl]
  rw [show (" =====" : String).data = [' ', '=', '=', '=', '=', '='] from rfl]
  simp

theorem headerLine_head (d : Date) :
    ("===== " ++ dateStr d ++ " =====").data.head? = some '=' := by
  rw [headerLine_data]
  rfl

theorem pstrip_headerLine (d : Date) :
    pstrip ("===== " ++ dateStr d ++ " =====") = "===== " ++ dateStr d ++ " =====" := by
  apply pstrip_eq_self_of_ends
  · intro a ha
    rw [headerLine_head] at ha
    simp only [Option.some.injEq] at ha
    subst ha
    rfl
  · intro a ha
    rw [show ("===== " ++ dateStr d ++ " =====").data
          = (['=', '=', '=', '=', '=', ' '] ++ (dateStr d).data)
              ++ [' ', '=', '=', '=', '=', '='] from by
        rw [String.data_append, String.data_append]] at ha
    rw [List.getLast?_append_of_ne_nil _ (by simp)] at ha
    rw [show ([' ', '=', '=', '=', '=', '='] : List Char).getLast? = some '='
      from rfl] at ha
    simp only [Option.some.injEq] at ha
    subst ha
    rfl

theorem parseStep_headerLine (st : PState) (d : Date) :
    parseStep st (pstrip ("===== " ++ dateStr d ++ " =====")) = st := by
  rw [pstrip_headerLine]
  refine parseStep_unrecognized st _ ?_ ?_ ?_
  · exact pstartsWith_head_ne (a := '=') (b := '✅') _ _ (headerLine_head d) rfl (by decide)
  · exact pstartsWith_head_ne (a := '=') (b := '❌') _ _ (headerLine_head d) rfl (by decide)
  · exact pstartsWith_head_ne (a := '=') (b := '-') _ _ (headerLine_head d) rfl (by decide)

theorem parseStep_bullet_completed (cs is : List String) (t : String) (h : validTask t) :
    parseStep (some true, cs, is) (pstrip ("- " ++ t)) = (some true, cs ++ [t], is) := by
  rw [pstrip_bullet t h]
  unfold parseStep
  rw [bullet_not_completedHeader, bullet_not_incompleteHeader, bullet_startsWith]
  simp [pdrop_bullet, h.2.1]

theorem parseStep_bullet_incomplete (cs is : List String) (t : String) (h : validTask t) :
    parseStep (some false, cs, is) (pstrip ("- " ++ t)) = (some false, cs, is ++ [t]) := by
  rw [pstrip_bullet t h]
  unfold parseStep
  rw [bullet_not_completedHeader, bullet_not_incompleteHeader, bullet_startsWith]
  simp [pdrop_bullet, h.2.1]

/-! ## Folding the parser over whole files -/

theorem foldl_bullets_completed (ts : List String) (h : ∀ t ∈ ts, validTask t)
    (cs is : List String) :
    (ts.map (fun t => "- " ++ t)).foldl (fun st ln => parseStep st (pstrip ln))
        (some true, cs, is)
      = (some true, cs ++ ts, is) := by
  induction ts generalizing cs with
  | nil => simp
  | cons t ts ih =>
      simp only [List.map_cons, List.foldl_cons]
      rw [parseStep_bullet_completed cs is t (h t (by simp))]
      rw [ih (fun x hx => h x (by simp [hx])) (cs ++ [t])]
      simp

theorem foldl_bullets_incomplete (ts : List String) (h : ∀ t ∈ ts, validTask t)
    (cs is : List String) :
    (ts.map (fun t => "- " ++ t)).foldl (fun st ln => parseStep st (pstrip ln))
        (some false, cs, is)
      = (some false, cs, is ++ ts) := by
  induction ts generalizing is with
  | nil => simp
  | cons t ts ih =>
      simp only [List.map_cons, List.foldl_cons]
      rw [parseStep_bullet_incomplete cs is t (h t (by simp))]
      rw [ih (fun x hx => h x (by simp [hx])) (is ++ [t])]
      simp

theorem foldl_completedSection (completed : List String)
    (h : ∀ t ∈ completed, validTask t) (cs is : List String) :
    (match completed with
      | [] => ["None"]
      | _ => completed.map (fun t => "- " ++ t)).foldl
        (fun st ln => parseStep st (pstrip ln)) (some true, cs, is)
      = (some true, cs ++ completed, is) := by
  cases completed with
  | nil => simp [parseStep_noneLine]
  | cons c ct => exact foldl_bullets_completed (c :: ct) h cs is

theorem foldl_incompleteSection (incomplete : List String)
    (h : ∀ t ∈ incomplete, validTask t) (cs is : List String) :
    (match incomplete with
      | [] => ["None"]
      | _ => incomplete.map (fun t => "- " ++ t)).foldl
        (fun st ln => parseStep st (pstrip ln)) (some false, cs, is)
      = (some false, cs, is ++ incomplete) := by
  cases incomplete with
  | nil => simp [parseStep_noneLine]
  | cons c ct => exact foldl_bullets_incomplete (c :: ct) h cs is

theorem parseLines_writeDailyFile (d : Date) (completed incomplete : List String)
    (hc : ∀ t ∈ completed, validTask t) (hi : ∀ t ∈ incomplete, validTask t) :
    parseLines (writeDailyFile d completed incomplete) = (completed, incomplete) := by
  unfold parseLines writeDailyFile
  simp only [List.foldl_append, List.foldl_cons, List.foldl_nil]
  rw [parseStep_headerLine, parseStep_completedHeader]
  rw [foldl_completedSection completed hc [] []]
  rw [parseStep_incompleteHeader]
  rw [foldl_incompleteSection incomplete hi ([] ++ completed) []]
  simp

theorem parseStep_noSection (cs is : List String) (ln : String)
    (h1 : pstartsWith ln "✅ Completed Tasks" = false)
    (h2 : pstartsWith ln "❌ Incomplete Tasks" = false) :
    parseStep (none, cs, is) ln = (none, cs, is) := by
  unfold parseStep
  rw [h1, h2]
  cases hb : pstartsWith ln "- " <;> simp [hb]

theorem foldl_parse_noSection (lns : List String) (cs is : List String)
    (h : ∀ ln ∈ lns, pstartsWith (pstrip ln) "✅ Completed Tasks" = false ∧
          pstartsWith (pstrip ln) "❌ Incomplete Tasks" = false) :
    lns.foldl (fun st ln => parseStep st (pstrip ln)) (none, cs, is) = (none, cs, is) := by
  induction lns with
  | nil => rfl
  | cons ln rest ih =>
      simp only [List.foldl_cons]
      rw [parseStep_noSection cs is (pstrip ln) (h ln (by simp)).1 (h ln (by simp)).2]
      exact ih (fun x hx => h x (by simp [hx]))

theorem parseStep_trimmed (st : PState) (ln : String)
    (hc : ∀ t ∈ st.2.1, pstrip t = t) (hi : ∀ t ∈ st.2.2, pstrip t = t) :
    (∀ t ∈ (parseStep st ln).2.1, pstrip t = t) ∧
      (∀ t ∈ (parseStep st ln).2.2, pstrip t = t) := by
  obtain ⟨sec, cs, is⟩ := st
  simp only [parseStep]
  split
  · exact ⟨hc, hi⟩
  · split
    · exact ⟨hc, hi⟩
    · split
      · cases sec with
        | none => exact ⟨hc, hi⟩
        | some b =>
            cases b with
            | true =>
                refine ⟨?_, hi⟩
                intro t ht
                rcases List.mem_append.1 ht with h1 | h2
                · exact hc t h1
                · have : t = pstrip (pdrop ln 2) := by simpa using h2
                  subst this
                  exact String.ext (stripChars_idem _)
            | false =>
                refine ⟨hc, ?_⟩
                intro t ht
                rcases List.mem_append.1 ht with h1 | h2
                · exact hi t h1
                · have : t = pstrip (pdrop ln 2) := by simpa using h2
                  subst this
                  exact String.ext (stripChars_idem _)
      · exact ⟨hc, hi⟩

theorem foldl_parse_trimmed (lns : List String) (st : PState)
    (hc : ∀ t ∈ st.2.1, pstrip t = t) (hi : ∀ t ∈ st.2.2, pstrip t = t) :
    (∀ t ∈ (lns.foldl (fun st ln => parseStep st (pstrip ln)) st).2.1, pstrip t = t) ∧
      (∀ t ∈ (lns.foldl (fun st ln => parseStep st (pstrip ln)) st).2.2, pstrip t = t) := by
  induction lns generalizing st with
  | nil => exact ⟨hc, hi⟩
  | cons ln rest ih =>
      simp only [List.foldl_cons]
      have step := parseStep_trimmed st (pstrip ln) hc hi
      exact ih (parseStep st (pstrip ln)) step.1 step.2

/-! ## The lexicographic string order used for file selection -/

theorem ltCh_irrefl : ∀ l : List Char, ltCh l l = false := by
  intro l
  induction l with
  | nil => rfl
  | cons a as ih => simp [ltCh, ih]

theorem ltCh_asymm : ∀ l₁ l₂ : List Char, ltCh l₁ l₂ = true → ltCh l₂ l₁ = false := by
  intro l₁
  induction l₁ with
  | nil =>
      intro l₂ h
      cases l₂ with
      | nil => simp [ltCh] at h
      | cons b bs => rfl
  | cons a as ih =>
      intro l₂ h
      cases l₂ with
      | nil => simp [ltCh] at h
      | cons b bs =>
          simp only [ltCh] at h ⊢
          by_cases h1 : a.toNat < b.toNat
          · rw [if_neg (by omega), if_pos h1]
          · by_cases h2 : b.toNat < a.toNat
            · simp [h1, h2] at h
            · rw [if_neg h2, if_neg h1]
              rw [if_neg h1, if_neg h2] at h
              exact ih bs h

theorem ltCh_eq_of_not : ∀ l₁ l₂ : List Char,
    ltCh l₁ l₂ = false → ltCh l₂ l₁ = false → l₁ = l₂ := by
  intro l₁
  induction l₁ with
  | nil =>
      intro l₂ h _
      cases l₂ with
      | nil => rfl
      | cons b bs => simp [ltCh] at h
  | cons a as ih =>
      intro l₂ h h'
      cases l₂ with
      | nil => simp [ltCh] at h'
      | cons b bs =>
          simp only [ltCh] at h h'
          by_cases h1 : a.toNat < b.toNat
          · simp [h1] at h
          · by_cases h2 : b.toNat < a.toNat
            · simp [h1, h2] at h h'
            · rw [if_neg h1, if_neg h2] at h
              rw [if_neg h2, if_neg h1] at h'
              have htn : a.toNat = b.toNat := by omega
              have hab : a = b := Char.eq_of_val_eq (UInt32.ext htn)
              rw [hab, ih bs h h']

theorem ltCh_trans : ∀ l₁ l₂ l₃ : List Char,
    ltCh l₁ l₂ = true → ltCh l₂ l₃ = true → ltCh l₁ l₃ = true := by
  intro l₁
  induction l₁ with
  | nil =>
      intro l₂ l₃ h h'
      cases l₂ with
      | nil => simp [ltCh] at h
      | cons b bs =>
          cases l₃ with
          | nil => simp [ltCh] at h'
          | cons c cs => rfl
  | cons a as ih =>
      intro l₂ l₃ h h'
      cases l₂ with
      | nil => simp [ltCh] at h
      | cons b bs =>
          cases l₃ with
          | nil => simp [ltCh] at h'
          | cons c cs =>
              simp only [ltCh] at h h' ⊢
              by_cases hab1 : a.toNat < b.toNat
              · by_cases hbc1 : b.toNat < c.toNat
                · rw [if_pos (by omega)]
                · by_cases hbc2 : c.toNat < b.toNat
                  · simp [hbc1, hbc2] at h'
                  · rw [if_pos (by omega)]
              · by_cases hab2 : b.toNat < a.toNat
                · simp [hab1, hab2] at h
                · rw [if_neg hab1, if_neg hab2] at h
                  by_cases hbc1 : b.toNat < c.toNat
                  · rw [if_pos (by omega)]
                  · by_cases hbc2 : c.toNat < b.toNat
                    · simp [hbc1, hbc2] at h'
                    · rw [if_neg hbc1, if_neg hbc2] at h'
                      rw [if_neg (by omega), if_neg (by omega)]
                      exact ih bs cs h h'

theorem strLe_refl (a : String) : strLe a a = true := by
  unfold strLe strLt
  rw [ltCh_irrefl]
  rfl

instance : IsTrans String strLeP := by
  constructor
  intro a b c hab hbc
  unfold strLeP strLe strLt at *
  rw [Bool.not_eq_true'] at hab hbc ⊢
  by_contra hca'
  have hca : ltCh c.data a.data = true := by
    cases hx : ltCh c.data a.data with
    | false => exact absurd hx hca'
    | true => rfl
  cases hbc2 : ltCh b.data c.data with
  | true => exact absurd (ltCh_trans _ _ _ hbc2 hca) (by rw [hab]; simp)
  | false =>
      have hbc3 : b.data = c.data := ltCh_eq_of_not _ _ hbc2 hbc
      rw [← hbc3] at hca
      exact absurd hca (by rw [hab]; simp)

instance : IsTotal String strLeP := by
  constructor
  intro a b
  unfold strLeP strLe strLt
  rw [Bool.not_eq_true', Bool.not_eq_true']
  by_cases h1 : ltCh b.data a.data = true
  · right
    exact ltCh_asymm _ _ h1
  · left
    cases hx : ltCh b.data a.data with
    | false => rfl
    | true => exact absurd hx h1

/-! ## The greatest element of a sorted list -/

theorem getLast?_mem_list {α : Type} : ∀ (l : List α) (m : α),
    l.getLast? = some m → m ∈ l := by
  intro l
  induction l with
  | nil => simp
  | cons a t ih =>
      intro m h
      cases t with
      | nil =>
          simp only [List.getLast?_singleton, Option.some.injEq] at h
          simp [h]
      | cons b t' =>
          rw [List.getLast?_cons_cons] at h
          exact List.mem_cons_of_mem a (ih m h)

theorem pairwise_getLast?_max {α : Type} {R : α → α → Prop} :
    ∀ (l : List α) (m : α), l.Pairwise R → l.getLast? = some m →
      ∀ x ∈ l, x = m ∨ R x m := by
  intro l
  induction l with
  | nil => intro m _ h; simp at h
  | cons a t ih =>
      intro m hp hl x hx
      cases t with
      | nil =>
          simp only [List.getLast?_singleton, Option.some.injEq] at hl
          rcases List.mem_singleton.1 hx with rfl
          exact Or.inl hl
      | cons b t' =>
          rw [List.getLast?_cons_cons] at hl
          rcases List.mem_cons.1 hx with rfl | hx'
          · right
            exact (List.pairwise_cons.1 hp).1 m (getLast?_mem_list _ m hl)
          · exact ih m (List.pairwise_cons.1 hp).2 hl x hx'

/-! ## Characterizing `get_latest_task_file` -/

theorem getLatestTaskFile_eq (files : List String) (d : Date) :
    getLatestTaskFile files (some d)
      = (((List.insertionSort strLeP files).filter
            (fun f => !(reportFiles.contains f))).filter
          (fun f => strLt f (dateStr d ++ ".txt"))).getLast? := rfl

theorem mem_eligible_iff (files : List String) (d : Date) (f : String) :
    f ∈ ((List.insertionSort strLeP files).filter
            (fun f => !(reportFiles.contains f))).filter
          (fun f => strLt f (dateStr d ++ ".txt"))
      ↔ f ∈ files ∧ reportFiles.contains f = false
          ∧ strLt f (dateStr d ++ ".txt") = true := by
  rw [List.mem_filter, List.mem_filter,
    (List.perm_insertionSort strLeP files).mem_iff]
  constructor
  · rintro ⟨⟨hmem, hrep⟩, hlt⟩
    exact ⟨hmem, by simpa using hrep, hlt⟩
  · rintro ⟨hmem, hrep, hlt⟩
    exact ⟨⟨hmem, by rw [hrep]; rfl⟩, hlt⟩

theorem eligible_pairwise (files : List String) (d : Date) :
    (((List.insertionSort strLeP files).filter
            (fun f => !(reportFiles.contains f))).filter
          (fun f => strLt f (dateStr d ++ ".txt"))).Pairwise strLeP :=
  ((List.sorted_insertionSort strLeP files).filter _).filter _

/-- The completion rate is determined by the two count fields exactly as the
source computes it (`if total else 0.0` guard included). -/
theorem summarizeRange_rate (entries : List Entry) (start stop : Date) :
    (summarizeRange entries start stop).completionRate =
      (if (summarizeRange entries start stop).completed
            + (summarizeRange entries start stop).incomplete ≠ 0 then
        ((summarizeRange entries start stop).completed : ℚ)
          / (((summarizeRange entries start stop).completed : ℚ)
              + ((summarizeRange entries start stop).incomplete : ℚ)) * 100
      else 0) := rfl

/-! ## The ledger -/

theorem appendToHistory_eq (ledger : Option (List Row)) (d : Date)
    (completed incomplete : List String) :
    appendToHistory ledger d completed incomplete
      = some (ledger.getD [] ++ newRows d completed incomplete) := by
  unfold appendToHistory ensureHistoryCsv
  cases ledger <;> cases h : newRows d completed incomplete <;> simp [h]

/-! ## Claims -/

/-- C2: for every day and every pair of task lists whose elements are valid
task names (non-empty, trimmed, single-line), writing the day's record with
`write_daily_file` and parsing the result with `parse_txt_day` yields the
same two lists in the same order. -/
theorem writeDailyFile_roundTrip (d : Date) (completed incomplete : List String)
    (hc : ∀ t ∈ completed, validTask t) (hi : ∀ t ∈ incomplete, validTask t) :
    parseTxtDay (some (writeDailyFile d completed incomplete)) = (completed, incomplete) :=
  parseLines_writeDailyFile d completed incomplete hc hi

theorem writeDailyFile_roundTrip_witness :
    (∀ t ∈ ["A", "B"], validTask t) ∧ (∀ t ∈ ["C"], validTask t)
    ∧ parseTxtDay (some (writeDailyFile ⟨2024, 1, 1⟩ ["A", "B"] ["C"]))
        = (["A", "B"], ["C"]) :=
  ⟨by decide, by decide,
    writeDailyFile_roundTrip ⟨2024, 1, 1⟩ ["A", "B"] ["C"] (by decide) (by decide)⟩

/-- C4: `append_to_history` keeps every previously stored row unchanged and
adds one row per task at the end — first the completed tasks, then the
incomplete ones — and a second identical save appends a duplicate block;
in particular two saves of `(completed=["A"], incomplete=[])` into an
initially absent ledger leave exactly 2 rows. -/
theorem appendToHistory_appendOnly (ledger : Option (List Row)) (d : Date)
    (completed incomplete : List String) :
    appendToHistory ledger d completed incomplete
      = some ((ledger.getD [])
          ++ (completed.map (fun t => (⟨dateStr d, t, "completed"⟩ : Row))
              ++ incomplete.map (fun t => (⟨dateStr d, t, "incomplete"⟩ : Row))))
    ∧ appendToHistory (appendToHistory ledger d completed incomplete) d completed incomplete
      = some ((ledger.getD [])
          ++ (completed.map (fun t => (⟨dateStr d, t, "completed"⟩ : Row))
              ++ incomplete.map (fun t => (⟨dateStr d, t, "incomplete"⟩ : Row)))
          ++ (completed.map (fun t => (⟨dateStr d, t, "completed"⟩ : Row))
              ++ incomplete.map (fun t => (⟨dateStr d, t, "incomplete"⟩ : Row))))
    ∧ ∀ d' : Date,
        ((appendToHistory (appendToHistory none d' ["A"] []) d' ["A"] []).getD []).length
          = 2 := by
  refine ⟨appendToHistory_eq ledger d completed incomplete, ?_, ?_⟩
  · rw [appendToHistory_eq, appendToHistory_eq]
    simp [newRows]
  · intro d'
    rw [appendToHistory_eq, appendToHistory_eq]
    simp [newRows]

/-- C9: saving with both task lists empty is a no-op on the ledger's rows:
the row list after the call is exactly the row list before (an absent
ledger file is created empty, still holding no rows). -/
theorem appendToHistory_noop (ledger : Option (List Row)) (d : Date) :
    appendToHistory ledger d [] [] = some (ledger.getD [])
    ∧ (appendToHistory ledger d [] []).getD [] = ledger.getD [] := by
  have h := appendToHistory_eq ledger d [] []
  simp only [newRows, List.map_nil, List.append_nil, List.nil_append] at h
  exact ⟨h, by simp [h]⟩

/-- C6: `load_history` never raises — it is a total function of the file
content; whenever the (arbitrary) parser fails it returns the empty row
list, so a corrupt ledger is observed exactly like an empty one, and on
success it returns the parsed rows, whose date column has been coerced to a
typed date value. -/
theorem loadHistory_failSoft (parse : List String → Option (List Entry))
    (file : Option (List String)) :
    (parse (ensureHistoryFile file) = none → loadHistoryWith parse file = [])
    ∧ (∀ rows, parse (ensureHistoryFile file) = some rows →
        loadHistoryWith parse file = rows)
    ∧ loadHistory file = loadHistoryWith parseLedger file := by
  refine ⟨?_, ?_, rfl⟩
  · intro h
    unfold loadHistoryWith
    rw [h]
  · intro rows h
    unfold loadHistoryWith
    rw [h]

theorem loadHistory_failSoft_witness :
    parseLedger (ensureHistoryFile (some ["garbage ~~ not a csv"])) = none
    ∧ loadHistoryWith parseLedger (some ["garbage ~~ not a csv"]) = []
    ∧ loadHistory (some ["garbage ~~ not a csv"]) = []
    ∧ loadHistory none = [] :=
  ⟨by decide,
    (loadHistory_failSoft parseLedger (some ["garbage ~~ not a csv"])).1 (by decide),
    by decide, by decide⟩

/-- C7: `parse_txt_day` returns two empty lists, with no error, for a
missing file, and silently ignores any line that is neither one of the two
recognized section-header prefixes nor a `"- "` bullet: inserting such a
line anywhere in a file does not change the parse result. -/
theorem parseTxtDay_missing_or_ignored (l₁ l₂ : List String) (ln : String)
    (h1 : pstartsWith (pstrip ln) "✅ Completed Tasks" = false)
    (h2 : pstartsWith (pstrip ln) "❌ Incomplete Tasks" = false)
    (h3 : pstartsWith (pstrip ln) "- " = false) :
    parseTxtDay none = ([], [])
    ∧ parseTxtDay (some (l₁ ++ ln :: l₂)) = parseTxtDay (some (l₁ ++ l₂)) := by
  refine ⟨rfl, ?_⟩
  unfold parseTxtDay parseLines
  dsimp only
  rw [List.foldl_append, List.foldl_append, List.foldl_cons]
  rw [parseStep_unrecognized _ (pstrip ln) h1 h2 h3]

theorem parseTxtDay_missing_or_ignored_witness :
    pstartsWith (pstrip "## decorative header ##") "✅ Completed Tasks" = false
    ∧ pstartsWith (pstrip "## decorative header ##") "❌ Incomplete Tasks" = false
    ∧ pstartsWith (pstrip "## decorative header ##") "- " = false
    ∧ parseTxtDay (some (["✅ Completed Tasks:"] ++ "## decorative header ##" :: ["- A"]))
        = parseTxtDay (some (["✅ Completed Tasks:"] ++ ["- A"]))
    ∧ parseTxtDay (some (["✅ Completed Tasks:"] ++ ["- A"])) = (["A"], []) :=
  ⟨by decide, by decide, by decide,
    (parseTxtDay_missing_or_ignored ["✅ Completed Tasks:"] ["- A"]
      "## decorative header ##" (by decide) (by decide) (by decide)).2,
    by decide⟩

/-- C8 (counterexample): a legacy-style record file whose section headers
are the plain-text `Completed Tasks:` / `Incomplete Tasks:` (no emoji
prefix) does not have its task lists recovered — `parse_txt_day` returns
two empty lists, not `(["A"], ["B"])`. -/
theorem parseTxtDay_plainHeaders_counterexample :
    parseTxtDay (some ["===== 2024-01-01 =====", "Completed Tasks:", "- A",
        "Incomplete Tasks:", "- B"]) = ([], [])
    ∧ parseTxtDay (some ["===== 2024-01-01 =====", "Completed Tasks:", "- A",
        "Incomplete Tasks:", "- B"]) ≠ (["A"], ["B"]) := by
  constructor
  · decide
  · decide

/-- C8 (amended): only the emoji-prefixed headers are recognized.  A record
file none of whose stripped lines starts with `✅ Completed Tasks` or
`❌ Incomplete Tasks` parses to two empty lists — every line, bullets
included (there being no active section), is ignored without error. -/
theorem parseTxtDay_noHeaders_empty (lns : List String)
    (h : ∀ ln ∈ lns, pstartsWith (pstrip ln) "✅ Completed Tasks" = false
          ∧ pstartsWith (pstrip ln) "❌ Incomplete Tasks" = false) :
    parseTxtDay (some lns) = ([], []) := by
  unfold parseTxtDay parseLines
  dsimp only
  rw [foldl_parse_noSection lns [] [] h]

theorem parseTxtDay_noHeaders_empty_witness :
    (∀ ln ∈ ["===== 2024-01-01 =====", "Completed Tasks:", "- A",
        "Incomplete Tasks:", "- B"],
      pstartsWith (pstrip ln) "✅ Completed Tasks" = false
        ∧ pstartsWith (pstrip ln) "❌ Incomplete Tasks" = false)
    ∧ parseTxtDay (some ["===== 2024-01-01 =====", "Completed Tasks:", "- A",
        "Incomplete Tasks:", "- B"]) = ([], []) :=
  ⟨by decide, parseTxtDay_noHeaders_empty _ (by decide)⟩

/-- C10: every task name `parse_txt_day` returns is trimmed (the text after
the `"- "` bullet marker is stripped of surrounding whitespace), and any
prefix of the file containing no recognized section header — in particular
bullet lines before the first header — is discarded entirely. -/
theorem parseTxtDay_trim_and_preHeader (lns pre rest : List String)
    (h : ∀ ln ∈ pre, pstartsWith (pstrip ln) "✅ Completed Tasks" = false
          ∧ pstartsWith (pstrip ln) "❌ Incomplete Tasks" = false) :
    (∀ t ∈ (parseTxtDay (some lns)).1, pstrip t = t)
    ∧ (∀ t ∈ (parseTxtDay (some lns)).2, pstrip t = t)
    ∧ parseTxtDay (some (pre ++ rest)) = parseTxtDay (some rest) := by
  refine ⟨?_, ?_, ?_⟩
  · exact (foldl_parse_trimmed lns (none, [], []) (by simp) (by simp)).1
  · exact (foldl_parse_trimmed lns (none, [], []) (by simp) (by simp)).2
  · unfold parseTxtDay parseLines
    dsimp only
    rw [List.foldl_append, foldl_parse_noSection pre [] [] h]

theorem parseTxtDay_trim_and_preHeader_witness :
    (∀ t ∈ (parseTxtDay (some ["✅ Completed Tasks:", "-   spaced task  "])).1,
      pstrip t = t)
    ∧ parseTxtDay (some (["- early bullet"] ++ ["✅ Completed Tasks:", "- A"]))
        = parseTxtDay (some ["✅ Completed Tasks:", "- A"])
    ∧ parseTxtDay (some ["✅ Completed Tasks:", "-   spaced task  "])
        = (["spaced task"], [])
    ∧ parseTxtDay (some (["- early bullet"] ++ ["✅ Completed Tasks:", "- A"]))
        = (["A"], []) :=
  ⟨(parseTxtDay_trim_and_preHeader ["✅ Completed Tasks:", "-   spaced task  "]
      ["- early bullet"] ["✅ Completed Tasks:", "- A"] (by decide)).1,
    (parseTxtDay_trim_and_preHeader ["✅ Completed Tasks:", "-   spaced task  "]
      ["- early bullet"] ["✅ Completed Tasks:", "- A"] (by decide)).2.2,
    by decide, by decide⟩

/-- C1: for any entries and dates `start ≤ end`, `summarize_range` keeps
exactly the entries with `start ≤ date ≤ end` (inclusive at both ends) and
reports `completed` / `incomplete` as the number of kept rows with the
respective status, `total` as their sum, and `daysTracked` as the number of
distinct dates among the kept rows. -/
theorem summarizeRange_counts_spec (entries : List Entry) (start stop : Date)
    (h : dateLe start stop = true) :
    inRange start stop = (fun e => dateLe start e.date && dateLe e.date stop)
    ∧ (summarizeRange entries start stop).completed
        = ((entries.filter (inRange start stop)).filter
            (fun e => e.status == "completed")).length
    ∧ (summarizeRange entries start stop).incomplete
        = ((entries.filter (inRange start stop)).filter
            (fun e => e.status == "incomplete")).length
    ∧ (summarizeRange entries start stop).total
        = (summarizeRange entries start stop).completed
            + (summarizeRange entries start stop).incomplete
    ∧ (summarizeRange entries start stop).daysTracked
        = (((entries.filter (inRange start stop)).map Entry.date).dedup).length :=
  ⟨rfl, rfl, rfl, rfl, rfl⟩

theorem summarizeRange_counts_spec_witness :
    dateLe ⟨2024, 1, 1⟩ ⟨2024, 1, 2⟩ = true
    ∧ (summarizeRange
        [⟨⟨2024, 1, 1⟩, "A", "completed"⟩, ⟨⟨2024, 1, 1⟩, "B", "incomplete"⟩,
          ⟨⟨2024, 1, 2⟩, "C", "completed"⟩] ⟨2024, 1, 1⟩ ⟨2024, 1, 2⟩).completed
        = (([⟨⟨2024, 1, 1⟩, "A", "completed"⟩, ⟨⟨2024, 1, 1⟩, "B", "incomplete"⟩,
            ⟨⟨2024, 1, 2⟩, "C", "completed"⟩].filter
              (inRange ⟨2024, 1, 1⟩ ⟨2024, 1, 2⟩)).filter
            (fun e => e.status == "completed")).length
    ∧ (summarizeRange
        [⟨⟨2024, 1, 1⟩, "A", "completed"⟩, ⟨⟨2024, 1, 1⟩, "B", "incomplete"⟩,
          ⟨⟨2024, 1, 2⟩, "C", "completed"⟩] ⟨2024, 1, 1⟩ ⟨2024, 1, 2⟩).completed = 2
    ∧ (summarizeRange
        [⟨⟨2024, 1, 1⟩, "A", "completed"⟩, ⟨⟨2024, 1, 1⟩, "B", "incomplete"⟩,
          ⟨⟨2024, 1, 2⟩, "C", "completed"⟩] ⟨2024, 1, 1⟩ ⟨2024, 1, 2⟩).incomplete = 1
    ∧ (summarizeRange
        [⟨⟨2024, 1, 1⟩, "A", "completed"⟩, ⟨⟨2024, 1, 1⟩, "B", "incomplete"⟩,
          ⟨⟨2024, 1, 2⟩, "C", "completed"⟩] ⟨2024, 1, 1⟩ ⟨2024, 1, 2⟩).total = 3
    ∧ (summarizeRange
        [⟨⟨2024, 1, 1⟩, "A", "completed"⟩, ⟨⟨2024, 1, 1⟩, "B", "incomplete"⟩,
          ⟨⟨2024, 1, 2⟩, "C", "completed"⟩] ⟨2024, 1, 1⟩ ⟨2024, 1, 2⟩).daysTracked = 2
    ∧ |(summarizeRange
        [⟨⟨2024, 1, 1⟩, "A", "completed"⟩, ⟨⟨2024, 1, 1⟩, "B", "incomplete"⟩,
          ⟨⟨2024, 1, 2⟩, "C", "completed"⟩] ⟨2024, 1, 1⟩ ⟨2024, 1, 2⟩).completionRate
        - 6667 / 100| ≤ 1 / 100 := by
  refine ⟨by decide,
    (summarizeRange_counts_spec
      [⟨⟨2024, 1, 1⟩, "A", "completed"⟩, ⟨⟨2024, 1, 1⟩, "B", "incomplete"⟩,
        ⟨⟨2024, 1, 2⟩, "C", "completed"⟩] ⟨2024, 1, 1⟩ ⟨2024, 1, 2⟩ (by decide)).2.1,
    by decide, by decide, by decide, by decide, ?_⟩
  rw [summarizeRange_rate]
  rw [show (summarizeRange
      [⟨⟨2024, 1, 1⟩, "A", "completed"⟩, ⟨⟨2024, 1, 1⟩, "B", "incomplete"⟩,
        ⟨⟨2024, 1, 2⟩, "C", "completed"⟩] ⟨2024, 1, 1⟩ ⟨2024, 1, 2⟩).completed = 2
    from by decide]
  rw [show (summarizeRange
      [⟨⟨2024, 1, 1⟩, "A", "completed"⟩, ⟨⟨2024, 1, 1⟩, "B", "incomplete"⟩,
        ⟨⟨2024, 1, 2⟩, "C", "completed"⟩] ⟨2024, 1, 1⟩ ⟨2024, 1, 2⟩).incomplete = 1
    from by decide]
  rw [if_pos (by norm_num)]
  rw [abs_le]
  constructor
  · norm_num
  · norm_num

/-- C5: `summarize_range` never divides by zero: over a range with no
matching entries it returns all counts zero and a completion rate of exactly
0; in general the rate equals `completed / (completed + incomplete) * 100`
whenever the denominator is positive, the counts are natural numbers by
construction, and the rate always lies in `[0, 100]`. -/
theorem summarizeRange_safety (entries : List Entry) (start stop : Date) :
    (entries.filter (inRange start stop) = [] →
      summarizeRange entries start stop = ⟨0, 0, 0, 0, 0⟩)
    ∧ (0 < (summarizeRange entries start stop).completed
          + (summarizeRange entries start stop).incomplete →
      (summarizeRange entries start stop).completionRate
        = ((summarizeRange entries start stop).completed : ℚ)
            / (((summarizeRange entries start stop).completed : ℚ)
                + ((summarizeRange entries start stop).incomplete : ℚ)) * 100)
    ∧ 0 ≤ (summarizeRange entries start stop).completionRate
    ∧ (summarizeRange entries start stop).completionRate ≤ 100 := by
  refine ⟨?_, ?_, ?_, ?_⟩
  · intro h
    simp [summarizeRange, h]
  · intro hpos
    rw [summarizeRange_rate, if_pos (by omega)]
  · rw [summarizeRange_rate]
    by_cases h : (summarizeRange entries start stop).completed
        + (summarizeRange entries start stop).incomplete ≠ 0
    · rw [if_pos h]
      positivity
    · rw [if_neg h]
  · rw [summarizeRange_rate]
    by_cases h : (summarizeRange entries start stop).completed
        + (summarizeRange entries start stop).incomplete ≠ 0
    · rw [if_pos h]
      have hpos : (0 : ℚ) < ((summarizeRange entries start stop).completed : ℚ)
          + ((summarizeRange entries start stop).incomplete : ℚ) := by
        have h0 : 0 < (summarizeRange entries start stop).completed
            + (summarizeRange entries start stop).incomplete := Nat.pos_of_ne_zero h
        exact_mod_cast h0
      have hle : ((summarizeRange entries start stop).completed : ℚ)
          ≤ ((summarizeRange entries start stop).completed : ℚ)
              + ((summarizeRange entries start stop).incomplete : ℚ) := by
        have h0 : (summarizeRange entries start stop).completed
            ≤ (summarizeRange entries start stop).completed
                + (summarizeRange entries start stop).incomplete := Nat.le_add_right _ _
        exact_mod_cast h0
      calc ((summarizeRange entries start stop).completed : ℚ)
            / (((summarizeRange entries start stop).completed : ℚ)
                + ((summarizeRange entries start stop).incomplete : ℚ)) * 100
          ≤ 1 * 100 :=
            mul_le_mul_of_nonneg_right ((div_le_one hpos).2 hle) (by norm_num)
        _ = 100 := by norm_num
    · rw [if_neg h]
      norm_num

theorem summarizeRange_safety_witness :
    ([] : List Entry).filter (inRange ⟨2024, 1, 1⟩ ⟨2024, 1, 2⟩) = []
    ∧ summarizeRange ([] : List Entry) ⟨2024, 1, 1⟩ ⟨2024, 1, 2⟩ = ⟨0, 0, 0, 0, 0⟩ :=
  ⟨by decide, (summarizeRange_safety [] ⟨2024, 1, 1⟩ ⟨2024, 1, 2⟩).1 (by decide)⟩

/-- C3: `load_carry_over_tasks(today)` returns the incomplete-task list of
the record selected by `get_latest_task_file(before_date=today)` — the file
whose name is the lexicographically greatest among the non-report files
strictly below today's zero-padded ISO filename — and the empty list when no
such file exists. -/
theorem loadCarryOverTasks_spec (fs : FileSys) (today : Date) :
    (getLatestTaskFile (fs.map Prod.fst) (some today) = none →
        loadCarryOverTasks fs today = []
        ∧ ∀ f ∈ fs.map Prod.fst, reportFiles.contains f = false →
            strLt f (dateStr today ++ ".txt") = true → False)
    ∧ (∀ p, getLatestTaskFile (fs.map Prod.fst) (some today) = some p →
        loadCarryOverTasks fs today = (parseTxtDay (readFile fs p)).2
        ∧ p ∈ fs.map Prod.fst
        ∧ reportFiles.contains p = false
        ∧ strLt p (dateStr today ++ ".txt") = true
        ∧ ∀ f ∈ fs.map Prod.fst, reportFiles.contains f = false →
            strLt f (dateStr today ++ ".txt") = true → strLe f p = true) := by
  constructor
  · intro hnone
    constructor
    · unfold loadCarryOverTasks
      rw [hnone]
    · intro f hf hrep hlt
      rw [getLatestTaskFile_eq] at hnone
      rw [List.getLast?_eq_none_iff] at hnone
      have hfmem := (mem_eligible_iff (fs.map Prod.fst) today f).2 ⟨hf, hrep, hlt⟩
      rw [hnone] at hfmem
      simp at hfmem
  · intro p hp
    constructor
    · unfold loadCarryOverTasks
      rw [hp]
    · rw [getLatestTaskFile_eq] at hp
      have hmem := getLast?_mem_list _ p hp
      have hdec := (mem_eligible_iff (fs.map Prod.fst) today p).1 hmem
      refine ⟨hdec.1, hdec.2.1, hdec.2.2, ?_⟩
      intro f hf hrep hlt
      have hfmem := (mem_eligible_iff (fs.map Prod.fst) today f).2 ⟨hf, hrep, hlt⟩
      rcases pairwise_getLast?_max _ p (eligible_pairwise (fs.map Prod.fst) today)
          hp f hfmem with rfl | hR
      · exact strLe_refl f
      · exact hR

theorem loadCarryOverTasks_spec_witness :
    loadCarryOverTasks
        [("2024-01-01.txt", writeDailyFile ⟨2024, 1, 1⟩ [] ["X"]),
          ("2024-01-03.txt", writeDailyFile ⟨2024, 1, 3⟩ ["Y"] [])] ⟨2024, 1, 3⟩
      = ["X"]
    ∧ loadCarryOverTasks
        [("2024-01-01.txt", writeDailyFile ⟨2024, 1, 1⟩ [] ["X"]),
          ("2024-01-03.txt", writeDailyFile ⟨2024, 1, 3⟩ ["Y"] [])] ⟨2024, 1, 2⟩
      = ["X"]
    ∧ getLatestTaskFile ["2024-01-01.txt", "2024-01-03.txt"] (some ⟨2024, 1, 3⟩)
      = some "2024-01-01.txt"
    ∧ loadCarryOverTasks
        [("2024-01-01.txt", writeDailyFile ⟨2024, 1, 1⟩ [] ["X"]),
          ("2024-01-03.txt", writeDailyFile ⟨2024, 1, 3⟩ ["Y"] [])] ⟨2024, 1, 3⟩
      = (parseTxtDay (readFile
          [("2024-01-01.txt", writeDailyFile ⟨2024, 1, 1⟩ [] ["X"]),
            ("2024-01-03.txt", writeDailyFile ⟨2024, 1, 3⟩ ["Y"] [])]
          "2024-01-01.txt")).2 :=
  ⟨by decide, by decide, by decide,
    ((loadCarryOverTasks_spec
      [("2024-01-01.txt", writeDailyFile ⟨2024, 1, 1⟩ [] ["X"]),
        ("2024-01-03.txt", writeDailyFile ⟨2024, 1, 3⟩ ["Y"] [])] ⟨2024, 1, 3⟩).2
      "2024-01-01.txt" (by decide)).1⟩
